import Mathlib

/-!
Shallow embedding of the figma_mcp relay server (src/README.md, embedded
TypeScript source) in Lean 4. Pure functions of the source become Lean
functions; the module-level mutable state (`activeSocket`, `activeChannel`,
`channels`, `requestQueue`, `pending`, `eventBuffer`) becomes an explicit
`RelayState` record threaded through the translated handlers; the
event-driven request/response correlation machinery becomes a step function
on `RelayState` that emits settlement observations.
-/

namespace FigmaMcp

/-- JSON values as exchanged by the relay.  Numbers are modelled as integers
(the claims under study never depend on fractional values). -/
inductive JsonVal where
  | null
  | bool (b : Bool)
  | num (n : Int)
  | str (s : String)
  | arr (elems : List JsonVal)
  | obj (fields : List (String × JsonVal))
deriving Repr

/-- Escape a character for JSON string output (quote and backslash, the
cases relevant to the serialization-equality comparisons in the source). -/
def escapeJsonChar (c : Char) : String :=
  if c = '"' then "\\\"" else if c = '\\' then "\\\\" else String.singleton c

/-- Escape a whole string for JSON output. -/
def escapeJson (s : String) : String :=
  String.join (s.toList.map escapeJsonChar)

mutual

/-- Model of `JSON.stringify` on `JsonVal` (used by `diffSnapshots` for
field-equality comparison). -/
def stringify : JsonVal → String
  | .null => "null"
  | .bool b => if b then "true" else "false"
  | .num n => toString n
  | .str s => "\"" ++ escapeJson s ++ "\""
  | .arr xs => "[" ++ stringifyElems xs ++ "]"
  | .obj fs => "\x7b" ++ stringifyFields fs ++ "\x7d"

/-- Comma-separated serialization of array elements. -/
def stringifyElems : List JsonVal → String
  | [] => ""
  | [x] => stringify x
  | x :: y :: xs => stringify x ++ "," ++ stringifyElems (y :: xs)

/-- Comma-separated serialization of object fields. -/
def stringifyFields : List (String × JsonVal) → String
  | [] => ""
  | [(k, v)] => "\"" ++ escapeJson k ++ "\":" ++ stringify v
  | (k, v) :: y :: xs =>
      "\"" ++ escapeJson k ++ "\":" ++ stringify v ++ "," ++ stringifyFields (y :: xs)

end

/-- One entry of the relay's `eventBuffer`. -/
structure EventEntry where
  id : String
  event : String
  payload : JsonVal
  timestamp : Int
  channel : String
deriving Repr

/-- A queued forwarded-call envelope (`QueuedRequest` in the source; the
`type: "request"` tag is constant and omitted). -/
structure QueuedRequest where
  id : String
  method : String
  params : JsonVal
  channel : String
deriving Repr

/-- The relay's module-level mutable state, made explicit.
`openSockets` records which websocket ids are currently open
(`readyState === OPEN`); `activeSocket` is the most recently connected
socket.  `pending` holds the correlation ids of the in-flight forwarded
calls (the promise callbacks are abstracted into the observations emitted
by the step function below). -/
structure RelayState where
  activeSocket : Option Nat
  openSockets : List Nat
  activeChannel : String
  channels : List String
  requestQueue : List QueuedRequest
  pending : List String
  eventBuffer : List EventEntry
deriving Repr

/-- The initial state of the relay module: no socket, channel registry
seeded with "default", everything else empty. -/
def initialState : RelayState :=
  { activeSocket := none
    openSockets := []
    activeChannel := "default"
    channels := ["default"]
    requestQueue := []
    pending := []
    eventBuffer := [] }

/-- `pushEvent` from the source, on the buffer list: push to the tail, then
`splice(0, length - MAX_EVENTS)` when the capacity `C` (= `MAX_EVENTS`) is
exceeded. -/
def pushEvent (C : Nat) (buf : List EventEntry) (e : EventEntry) : List EventEntry :=
  let b := buf ++ [e]
  if C < b.length then b.drop (b.length - C) else b

/-- Folding `pushEvent` over a whole sequence of appends starting from the
empty buffer. -/
def appendAll (C : Nat) (es : List EventEntry) : List EventEntry :=
  es.foldl (pushEvent C) []

theorem pushEvent_eq_drop (C : Nat) (buf : List EventEntry) (e : EventEntry) :
    pushEvent C buf e = (buf ++ [e]).drop ((buf ++ [e]).length - C) := by
  unfold pushEvent
  simp only []
  split
  · rfl
  · next h =>
    simp at h ⊢
    have : buf.length + 1 - C = 0 := by omega
    simp [this]

theorem appendAll_snoc (C : Nat) (es : List EventEntry) (e : EventEntry) :
    appendAll C (es ++ [e]) = pushEvent C (appendAll C es) e := by
  simp [appendAll, List.foldl_append]

/-- Dropping all but the last `C` elements twice collapses to once more
element appended. -/
theorem drop_snoc_drop (C : Nat) (es : List EventEntry) (e : EventEntry) :
    (es.drop (es.length - C) ++ [e]).drop ((es.drop (es.length - C) ++ [e]).length - C)
      = (es ++ [e]).drop ((es ++ [e]).length - C) := by
  rcases le_or_lt es.length C with h | h
  · have h0 : es.length - C = 0 := by omega
    simp [h0]
  · rcases Nat.eq_zero_or_pos C with hC | hC
    · subst hC
      simp [List.drop_append_eq_append_drop]
    · have hlen : (es.drop (es.length - C)).length = C := by
        simp
        omega
      have hfull : (es.drop (es.length - C) ++ [e]).length - C = 1 := by
        simp
        omega
      rw [hfull]
      have h1 : (1 : Nat) ≤ (es.drop (es.length - C)).length := by omega
      rw [List.drop_append_of_le_length h1]
      have h2 : (es ++ [e]).length - C = es.length + 1 - C := by simp
      rw [h2]
      have h3 : es.length + 1 - C ≤ es.length := by omega
      rw [List.drop_append_of_le_length h3]
      rw [List.drop_drop]
      have h4 : es.length - C + 1 = es.length + 1 - C := by omega
      rw [h4]

theorem appendAll_eq_lastC (C : Nat) (es : List EventEntry) :
    appendAll C es = es.drop (es.length - C) := by
  induction es using List.reverseRecOn with
  | nil => simp [appendAll]
  | append_singleton es e ih =>
      rw [appendAll_snoc, ih, pushEvent_eq_drop, drop_snoc_drop]

/-- An inbound event message as seen by `handleEventMessage`: the result of
the source's dynamic field checks.  `event` is `some e` exactly when
`typeof message.event === "string"`; `timestamp` is `some t` exactly when
`typeof message.timestamp === "number"`.  The `channel` field a message may
carry is recorded here so that theorems can talk about it (the source never
reads it). -/
structure EventMessage where
  event : Option String
  payload : JsonVal
  timestamp : Option Int
  channel : Option String

/-- Resolve `channelOverride || activeChannel` from the source: the override
wins unless it is absent or the empty string (falsy in JS). -/
def resolveChannel (override : Option String) (active : String) : String :=
  match override with
  | some s => if s.isEmpty then active else s
  | none => active

/-- `handleEventMessage(message, channelOverride)` from the source.  The id
generation `Date.now()-Math.random()` and the `Date.now()` timestamp default
are environment inputs, passed here as `genId` and `now`. -/
def handleEventMessage (C : Nat) (st : RelayState) (msg : EventMessage)
    (override : Option String) (genId : String) (now : Int) : RelayState :=
  match msg.event with
  | none => st
  | some e =>
      let entry : EventEntry :=
        { id := genId
          event := e
          payload := msg.payload
          timestamp := msg.timestamp.getD now
          channel := resolveChannel override st.activeChannel }
      { st with eventBuffer := pushEvent C st.eventBuffer entry }

/-- Arguments of the `get_events` tool after the source's dynamic type
checks: `limit`/`since` are `some` exactly when the corresponding parameter
is a number, `channel` is `some` exactly when it is a string, and `clear`
is the result of `params.clear === true`. -/
structure GetEventsParams where
  limit : Option Int
  since : Option Int
  clear : Bool
  channel : Option String

/-- Result object of `getEvents`. -/
structure GetEventsResult where
  channel : String
  total : Nat
  returned : Nat
  events : List EventEntry

/-- `getEvents` from the source: filter by channel, then by `since`, then
keep the last `limit` entries; optionally clear the whole buffer afterwards.
An empty-string channel is falsy in JS, so it neither filters nor appears in
the result. -/
def getEvents (st : RelayState) (p : GetEventsParams) : GetEventsResult × RelayState :=
  let chan : Option String :=
    match p.channel with
    | some c => if c.isEmpty then none else some c
    | none => none
  let limit : Int :=
    match p.limit with
    | some l => if 0 < l then l else (st.eventBuffer.length : Int)
    | none => (st.eventBuffer.length : Int)
  let evs1 :=
    match chan with
    | some c => st.eventBuffer.filter (fun e => e.channel = c)
    | none => st.eventBuffer
  let evs2 :=
    match p.since with
    | some t => evs1.filter (fun e => t ≤ e.timestamp)
    | none => evs1
  let evs3 := if limit < (evs2.length : Int) then evs2.drop (evs2.length - limit.toNat) else evs2
  ({ channel := chan.getD st.activeChannel
     total := st.eventBuffer.length
     returned := evs3.length
     events := evs3 },
   if p.clear then { st with eventBuffer := [] } else st)

/-- `clearEvents` from the source: with no (or a falsy empty-string) channel
clear everything; otherwise remove exactly the entries of that channel.
Returns the number of entries removed. -/
def clearEvents (st : RelayState) (channel : Option String) : Nat × RelayState :=
  let chan : Option String :=
    match channel with
    | some c => if c.isEmpty then none else some c
    | none => none
  match chan with
  | none => (st.eventBuffer.length, { st with eventBuffer := [] })
  | some c =>
      let kept := st.eventBuffer.filter (fun e => e.channel ≠ c)
      (st.eventBuffer.length - kept.length, { st with eventBuffer := kept })

/-- Per-channel tallies of the live event buffer (the `counts` record of
`listChannels`), in first-seen channel order. -/
def channelCounts (buf : List EventEntry) : List (String × Nat) :=
  buf.foldl
    (fun acc e =>
      if acc.any (fun kv => kv.1 = e.channel) then
        acc.map (fun kv => if kv.1 = e.channel then (kv.1, kv.2 + 1) else kv)
      else acc ++ [(e.channel, 1)])
    []

/-- Result object of `listChannels`. -/
structure ListChannelsResult where
  activeChannel : String
  channels : List String
  counts : List (String × Nat)

/-- `listChannels` from the source. -/
def listChannels (st : RelayState) : ListChannelsResult :=
  { activeChannel := st.activeChannel
    channels := st.channels
    counts := channelCounts st.eventBuffer }

/-- `joinChannel` from the source: add to the known set (a JS `Set`, hence
idempotent, insertion order preserved) and make it active. -/
def joinChannel (st : RelayState) (c : String) : String × RelayState :=
  let chs := if c ∈ st.channels then st.channels else st.channels ++ [c]
  (c, { st with channels := chs, activeChannel := c })

/-- `leaveChannel` from the source: delete from the known set unless it is
"default", optionally purge that channel's buffered events, and reset the
active channel to "default" if the left channel was active. -/
def leaveChannel (st : RelayState) (c : String) (clear : Bool) : RelayState :=
  let st1 := if c = "default" then st else { st with channels := st.channels.erase c }
  let st2 := if clear then (clearEvents st1 (some c)).2 else st1
  if st2.activeChannel = c then { st2 with activeChannel := "default" } else st2

/-- How a pending forwarded call's promise is settled. -/
inductive Outcome where
  | success
  | pluginError
  | timedOut
  | disconnected
deriving DecidableEq, Repr

/-- A settlement observation: the promise registered under correlation id
`id` was settled with `outcome`. -/
structure Obs where
  id : String
  outcome : Outcome
deriving DecidableEq, Repr

/-- `handleResponseMessage` from the source: a reply whose id is unknown is
silently dropped; otherwise the timer is cleared, the entry removed, and
the promise resolved or rejected according to the presence of `error`.
`msgId` is `some i` exactly when `typeof message.id === "string"`. -/
def handleResponseMessage (st : RelayState) (msgId : Option String) (isError : Bool) :
    RelayState × List Obs :=
  match msgId with
  | none => (st, [])
  | some i =>
      if i ∈ st.pending then
        ({ st with pending := st.pending.erase i },
         [⟨i, if isError then .pluginError else .success⟩])
      else (st, [])

/-- The `activeSocket && activeSocket.readyState === WebSocket.OPEN` check
of `sendToPlugin`. -/
def canPush (st : RelayState) : Bool :=
  match st.activeSocket with
  | some s => s ∈ st.openSockets
  | none => false

/-- The `/pull` endpoint: `requestQueue.shift()` — dequeue and return the
oldest queued envelope, or nothing. -/
def pullEndpoint (st : RelayState) : Option QueuedRequest × RelayState :=
  match st.requestQueue with
  | [] => (none, st)
  | e :: rest => (some e, { st with requestQueue := rest })

/-- One interleaving step of the relay's event loop.  `register` is the
synchronous part of `sendToPlugin` (the fresh correlation id is an
environment input); `timeoutFire` is the expiry of a registered entry's
timer; `response` is an inbound reply (over the socket or `/push`);
`connect`/`close` are the websocket lifecycle handlers; `pull` is the
`/pull` endpoint. -/
inductive Step where
  | connect (sock : Nat)
  | close (sock : Nat)
  | register (id : String) (method : String) (params : JsonVal)
  | response (id : String) (isError : Bool)
  | timeoutFire (id : String)
  | pull

/-- Does this step register the given correlation id? -/
def registersId (i : String) : Step → Bool
  | .register j _ _ => j = i
  | _ => false

/-- The step function.  Notes on fidelity to the single-threaded source:
a `timeoutFire i` can only occur while `i` is still pending, because every
other settlement path calls `clearTimeout` in the same synchronous block
that removes the entry, so the timer of a removed entry can never fire; an
entry is pending iff its timer is armed.  `register` models `pending.set`
at the key level (re-registering an existing id does not grow the map). -/
def stepRun (st : RelayState) : Step → RelayState × List Obs
  | .connect sock =>
      ({ st with activeSocket := some sock, openSockets := sock :: st.openSockets }, [])
  | .close sock =>
      ({ st with
          activeSocket := if st.activeSocket = some sock then none else st.activeSocket,
          openSockets := st.openSockets.erase sock,
          pending := [] },
       st.pending.map (fun i => ⟨i, .disconnected⟩))
  | .register id method params =>
      let payload : QueuedRequest := ⟨id, method, params, st.activeChannel⟩
      let newPending := if id ∈ st.pending then st.pending else st.pending ++ [id]
      if canPush st then
        ({ st with pending := newPending }, [])
      else
        ({ st with pending := newPending, requestQueue := st.requestQueue ++ [payload] }, [])
  | .response id isError => handleResponseMessage st (some id) isError
  | .timeoutFire id =>
      if id ∈ st.pending then
        ({ st with pending := st.pending.erase id }, [⟨id, .timedOut⟩])
      else (st, [])
  | .pull =>
      let (_, st') := pullEndpoint st
      (st', [])

/-- Run a list of steps, accumulating the emitted observations. -/
def runSteps (st : RelayState) : List Step → RelayState × List Obs
  | [] => (st, [])
  | s :: rest =>
      let (st1, o1) := stepRun st s
      let (st2, o2) := runSteps st1 rest
      (st2, o1 ++ o2)

/-- Number of settlement observations for a given id. -/
def obsCount (i : String) (os : List Obs) : Nat :=
  (os.map Obs.id).count i

theorem map_obsId_mk (o : Outcome) (l : List String) :
    (l.map (fun i => ({ id := i, outcome := o } : Obs))).map Obs.id = l := by
  induction l with
  | nil => rfl
  | cons a t ih => simp [ih]

theorem count_singleton_ne (i j : String) (h : ¬(j = i)) :
    List.count i [j] = 0 := by
  apply List.count_eq_zero.mpr
  simp
  exact fun hh => h hh.symm

theorem stepRun_count (i : String) (st : RelayState) (s : Step)
    (h : registersId i s = false) :
    (stepRun st s).1.pending.count i + obsCount i (stepRun st s).2
      = st.pending.count i := by
  cases s with
  | connect sock => simp [stepRun, obsCount]
  | close sock =>
      simp only [stepRun, obsCount, map_obsId_mk]
      simp
  | register j m p =>
      have hj : ¬(j = i) := by simpa [registersId] using h
      have hs : List.count i [j] = 0 := count_singleton_ne i j hj
      by_cases hm : j ∈ st.pending
      · by_cases hc : canPush st
        · simp [stepRun, obsCount, hc, hm]
        · simp [stepRun, obsCount, hc, hm]
      · by_cases hc : canPush st
        · simp [stepRun, obsCount, hc, hm, List.count_append, hs]
        · simp [stepRun, obsCount, hc, hm, List.count_append, hs]
  | response j e =>
      by_cases hm : j ∈ st.pending
      · by_cases hji : j = i
        · subst hji
          have hpos : 0 < st.pending.count j := List.count_pos_iff.mpr hm
          simp [stepRun, handleResponseMessage, obsCount, hm,
            List.count_erase_self]
        · have hs : List.count i [j] = 0 := count_singleton_ne i j hji
          simp [stepRun, handleResponseMessage, obsCount, hm,
            List.count_erase_of_ne (Ne.symm hji), hs]
      · simp [stepRun, handleResponseMessage, obsCount, hm]
  | timeoutFire j =>
      by_cases hm : j ∈ st.pending
      · by_cases hji : j = i
        · subst hji
          have hpos : 0 < st.pending.count j := List.count_pos_iff.mpr hm
          simp [stepRun, obsCount, hm, List.count_erase_self]
        · have hs : List.count i [j] = 0 := count_singleton_ne i j hji
          simp [stepRun, obsCount, hm, List.count_erase_of_ne (Ne.symm hji), hs]
      · simp [stepRun, obsCount, hm]
  | pull =>
      cases hq : st.requestQueue with
      | nil => simp [stepRun, pullEndpoint, obsCount, hq]
      | cons a rest => simp [stepRun, pullEndpoint, obsCount, hq]

theorem runSteps_append (st : RelayState) (a b : List Step) :
    runSteps st (a ++ b)
      = ((runSteps (runSteps st a).1 b).1,
         (runSteps st a).2 ++ (runSteps (runSteps st a).1 b).2) := by
  induction a generalizing st with
  | nil => simp [runSteps]
  | cons s rest ih =>
      simp [runSteps, ih, List.append_assoc]

theorem obsCount_append (i : String) (a b : List Obs) :
    obsCount i (a ++ b) = obsCount i a + obsCount i b := by
  simp [obsCount, List.count_append]

/-- Conservation over a trace free of registrations for `i`: every
settlement observation for `i` is paid for by one occurrence leaving
`pending`. -/
theorem runSteps_count_noReg (i : String) (ts : List Step) :
    ∀ st : RelayState, (ts.all fun s => !(registersId i s)) →
    (runSteps st ts).1.pending.count i + obsCount i (runSteps st ts).2
      = st.pending.count i := by
  induction ts with
  | nil => intro st _; simp [runSteps, obsCount]
  | cons s rest ih =>
      intro st hall
      simp only [List.all_cons, Bool.and_eq_true, Bool.not_eq_true'] at hall
      have h1 := stepRun_count i st s hall.1
      have h2 := ih (stepRun st s).1 (by simpa using hall.2)
      simp only [runSteps]
      rw [obsCount_append]
      omega

theorem runSteps_register_once (i : String) (st : RelayState)
    (ts1 ts2 : List Step) (m : String) (p : JsonVal)
    (h0 : st.pending.count i = 0)
    (h1 : ts1.all fun s => !(registersId i s))
    (h2 : ts2.all fun s => !(registersId i s)) :
    obsCount i (runSteps st (ts1 ++ Step.register i m p :: ts2)).2
      + (runSteps st (ts1 ++ Step.register i m p :: ts2)).1.pending.count i = 1 := by
  rw [runSteps_append]
  have hA := runSteps_count_noReg i ts1 st h1
  set st1 := (runSteps st ts1).1 with hst1
  have hA1 : st1.pending.count i = 0 := by omega
  have hA2 : obsCount i (runSteps st ts1).2 = 0 := by omega
  have hnm : ¬(i ∈ st1.pending) := by
    intro hmem
    have := List.count_pos_iff.mpr hmem
    omega
  have hreg : (stepRun st1 (Step.register i m p)).1.pending.count i = 1 ∧
      obsCount i (stepRun st1 (Step.register i m p)).2 = 0 := by
    by_cases hc : canPush st1
    · constructor
      · simp [stepRun, hc, hnm, List.count_append, hA1]
      · simp [stepRun, hc, obsCount]
    · constructor
      · simp [stepRun, hc, hnm, List.count_append, hA1]
      · simp [stepRun, hc, obsCount]
  have hB := runSteps_count_noReg i ts2 (stepRun st1 (Step.register i m p)).1 h2
  simp only [runSteps]
  rw [obsCount_append, obsCount_append]
  omega

/-! ## Snapshot diff engine -/

/-- A node projection: a JSON object, as an ordered field list with the
usual JS-object key uniqueness (lookups take the first occurrence). -/
def Node := List (String × JsonVal)

instance : Inhabited Node := ⟨([] : List (String × JsonVal))⟩

/-- Input to `normalizeSnapshotInput`: a node array, a wrapper object whose
`nodes` field is an array, or anything else. -/
inductive SnapshotInput where
  | arr (nodes : List Node)
  | wrapped (nodes : List Node)
  | other

/-- `normalizeSnapshotInput` from the source. -/
def normalizeSnapshotInput : SnapshotInput → List Node
  | .arr ns => ns
  | .wrapped ns => ns
  | .other => []

/-- The `typeof node.id === "string"` check plus the id read. -/
def nodeId (n : Node) : Option String :=
  match List.lookup "id" n with
  | some (.str s) => some s
  | _ => none

/-- `Map.set` of a JS `Map` keyed by strings: overwrite in place, else
append (insertion order preserved). -/
def mapSet (m : List (String × Node)) (k : String) (v : Node) :
    List (String × Node) :=
  if m.any (fun kv => kv.1 = k) then
    m.map (fun kv => if kv.1 = k then (k, v) else kv)
  else m ++ [(k, v)]

/-- Build the id-keyed node map of `diffSnapshots`. -/
def buildNodeMap (nodes : List Node) : List (String × Node) :=
  nodes.foldl
    (fun m n =>
      match nodeId n with
      | some i => mapSet m i n
      | none => m)
    []

/-- `Map.get`: first (unique) entry with the key. -/
def lookupMap (m : List (String × Node)) (k : String) : Option Node :=
  (m.find? (fun kv => kv.1 = k)).map (fun kv => kv.2)

/-- `Object.keys` of a node (unique, in insertion order). -/
def nodeKeys (n : Node) : List String :=
  (n.map Prod.fst).eraseDups

/-- The changed-field computation of `diffSnapshots` for one id present on
both sides: union of both key sets, minus ignored fields, a field counting
as changed when the `JSON.stringify` serializations differ (an absent field
reads as JS `undefined`, modelled as `none`). -/
def changedFields (b a : Node) (ignoreFields : List String) :
    List (String × Option JsonVal × Option JsonVal) :=
  ((nodeKeys b ++ nodeKeys a).eraseDups).filterMap fun k =>
    if ignoreFields.contains k then none
    else
      let bv := List.lookup k b
      let av := List.lookup k a
      if bv.map stringify = av.map stringify then none
      else some (k, bv, av)

/-- One entry of the `changed` sequence. -/
structure ChangedEntry where
  id : String
  fields : List (String × Option JsonVal × Option JsonVal)

/-- The result object of `diffSnapshots`. -/
structure DiffResult where
  addedCount : Nat
  removedCount : Nat
  changedCount : Nat
  added : List Node
  removed : List Node
  changed : List ChangedEntry

/-- `diffSnapshots` from the source.  `ignoreFieldsParam` is `some xs`
exactly when `Array.isArray(params.ignoreFields)`; non-string entries are
filtered out, and a missing array defaults to `["children"]`. -/
def diffSnapshots (before after : SnapshotInput)
    (ignoreFieldsParam : Option (List JsonVal)) : DiffResult :=
  let beforeNodes := normalizeSnapshotInput before
  let afterNodes := normalizeSnapshotInput after
  let ignoreFields : List String :=
    match ignoreFieldsParam with
    | some xs => xs.filterMap (fun v => match v with | .str s => some s | _ => none)
    | none => ["children"]
  let beforeMap := buildNodeMap beforeNodes
  let afterMap := buildNodeMap afterNodes
  let added := (afterMap.filter (fun kv => (lookupMap beforeMap kv.1).isNone)).map
    (fun kv => kv.2)
  let removed := (beforeMap.filter (fun kv => (lookupMap afterMap kv.1).isNone)).map
    (fun kv => kv.2)
  let changed := beforeMap.filterMap fun kv =>
    match lookupMap afterMap kv.1 with
    | none => none
    | some aN =>
        let fs := changedFields kv.2 aN ignoreFields
        if fs.isEmpty then none else some ⟨kv.1, fs⟩
  { addedCount := added.length
    removedCount := removed.length
    changedCount := changed.length
    added := added
    removed := removed
    changed := changed }

/-- `mapSet` preserves key-uniqueness of the association list. -/
theorem mapSet_nodup_keys (m : List (String × Node)) (k : String) (v : Node)
    (h : (m.map Prod.fst).Nodup) : ((mapSet m k v).map Prod.fst).Nodup := by
  unfold mapSet
  by_cases hc : m.any (fun kv => kv.1 = k)
  · simp only [hc, if_true]
    have : (m.map (fun kv => if kv.1 = k then (k, v) else kv)).map Prod.fst
        = m.map Prod.fst := by
      rw [List.map_map]
      apply List.map_congr_left
      intro kv _
      by_cases hk : kv.1 = k
      · simp [hk]
      · simp [hk]
    rw [this]
    exact h
  · simp only [Bool.not_eq_true] at hc
    simp only [hc, Bool.false_eq_true, if_false]
    have hnk : ∀ kv ∈ m, ¬(kv.1 = k) := by
      intro kv hmem hk
      have hany : (m.any fun kv => decide (kv.1 = k)) = true :=
        List.any_eq_true.mpr ⟨kv, hmem, by simp [hk]⟩
      rw [hc] at hany
      cases hany
    rw [List.map_append]
    simp only [List.map_cons, List.map_nil]
    apply List.Nodup.append h (by simp)
    intro x hx hy
    simp at hy
    subst hy
    rcases List.mem_map.mp hx with ⟨kv, hkv, hfst⟩
    exact hnk kv hkv hfst

/-- All node maps built by `buildNodeMap` have unique keys. -/
theorem buildNodeMap_nodup_keys (nodes : List Node) :
    ((buildNodeMap nodes).map Prod.fst).Nodup := by
  unfold buildNodeMap
  suffices h : ∀ m : List (String × Node), (m.map Prod.fst).Nodup →
      ((nodes.foldl
        (fun m n => match nodeId n with | some i => mapSet m i n | none => m)
        m).map Prod.fst).Nodup by
    exact h [] (by simp)
  induction nodes with
  | nil => intro m hm; simpa using hm
  | cons n rest ih =>
      intro m hm
      simp only [List.foldl_cons]
      cases nodeId n with
      | none => exact ih m hm
      | some i => exact ih (mapSet m i n) (mapSet_nodup_keys m i n hm)

/-- In a key-unique association list, `find?` on a member's key returns
that member. -/
theorem find?_eq_of_mem_nodup (m : List (String × Node)) (kv : String × Node)
    (hnd : (m.map Prod.fst).Nodup) (hmem : kv ∈ m) :
    m.find? (fun x => x.1 = kv.1) = some kv := by
  induction m with
  | nil => cases hmem
  | cons a rest ih =>
      simp only [List.map_cons, List.nodup_cons] at hnd
      rcases List.mem_cons.mp hmem with h | h
      · subst h
        simp [List.find?_cons]
      · have hne : ¬(a.1 = kv.1) := by
          intro he
          exact hnd.1 (he ▸ List.mem_map.mpr ⟨kv, h, rfl⟩)
        rw [List.find?_cons]
        simp [hne]
        exact ih hnd.2 h

/-- A node compared against itself has no changed fields. -/
theorem changedFields_self (n : Node) (ig : List String) :
    changedFields n n ig = [] := by
  unfold changedFields
  apply List.filterMap_eq_nil_iff.mpr
  intro k _
  by_cases hig : ig.contains k
  · simp [hig]
  · simp [hig]

/-- C8: For every snapshot S (node-projection sequence or wrapper object),
`diff_snapshots` applied to S on both sides with an empty ignore-field list
yields zero added, removed and changed counts, with empty added, removed
and changed sequences. -/
theorem claim_C8_diff_self (S : SnapshotInput) :
    diffSnapshots S S (some []) =
      { addedCount := 0, removedCount := 0, changedCount := 0,
        added := [], removed := [], changed := [] } := by
  have hnd := buildNodeMap_nodup_keys (normalizeSnapshotInput S)
  have hlook : ∀ kv ∈ buildNodeMap (normalizeSnapshotInput S),
      lookupMap (buildNodeMap (normalizeSnapshotInput S)) kv.1 = some kv.2 := by
    intro kv hmem
    unfold lookupMap
    rw [find?_eq_of_mem_nodup _ kv hnd hmem]
    rfl
  unfold diffSnapshots
  simp only [List.filterMap_nil]
  have hfilter : (buildNodeMap (normalizeSnapshotInput S)).filter
      (fun kv => (lookupMap (buildNodeMap (normalizeSnapshotInput S)) kv.1).isNone)
        = [] := by
    apply List.filter_eq_nil_iff.mpr
    intro kv hmem
    rw [hlook kv hmem]
    simp
  have hchanged : (buildNodeMap (normalizeSnapshotInput S)).filterMap
      (fun kv =>
        match lookupMap (buildNodeMap (normalizeSnapshotInput S)) kv.1 with
        | none => none
        | some aN =>
            let fs := changedFields kv.2 aN []
            if fs.isEmpty then none else some (⟨kv.1, fs⟩ : ChangedEntry))
        = [] := by
    apply List.filterMap_eq_nil_iff.mpr
    intro kv hmem
    rw [hlook kv hmem]
    simp [changedFields_self]
  rw [hfilter, hchanged]
  simp

/-! ## Batch execution -/

/-- One entry of the `calls` array of `batch_calls`.  `name` is `some n`
exactly when the entry is an object whose `name` is a string; `arguments`
is `some a` exactly when `call.arguments` is an object (otherwise the
source substitutes an empty object). -/
structure BatchCall where
  name : Option String
  arguments : Option JsonVal

/-- One per-entry record pushed onto `results`: the source pushes objects
of three shapes, so `name`, `result` and `error` are optional. -/
structure BatchEntryResult where
  index : Nat
  ok : Bool
  name : Option String
  result : Option JsonVal
  error : Option String

/-- The result object of `runBatchCalls`. -/
structure BatchResult where
  total : Nat
  returned : Nat
  results : List BatchEntryResult

/-- The sequential loop of `runBatchCalls`.  `exec` abstracts the awaited
settlement of `executeTool` — a state transformer returning the tool's
result or its thrown/rejected error message (local handlers and forwarded
calls alike); `σ` is the state `executeTool` may read and mutate.  The loop
never starts entry `i+1` before entry `i`'s `exec` has returned. -/
def runBatchAux {σ : Type} (exec : String → JsonVal → σ → σ × Except String JsonVal)
    (stopOnError : Bool) : List BatchCall → Nat → σ → List BatchEntryResult × σ
  | [], _, s => ([], s)
  | c :: rest, i, s =>
      match c.name with
      | none =>
          let r : BatchEntryResult :=
            { index := i, ok := false, name := none, result := none,
              error := some "Invalid call.name" }
          if stopOnError then ([r], s)
          else
            let (rs, s2) := runBatchAux exec stopOnError rest (i + 1) s
            (r :: rs, s2)
      | some n =>
          if n = "batch_calls" then
            let r : BatchEntryResult :=
              { index := i, ok := false, name := none, result := none,
                error := some "Nested batch_calls is not supported" }
            if stopOnError then ([r], s)
            else
              let (rs, s2) := runBatchAux exec stopOnError rest (i + 1) s
              (r :: rs, s2)
          else
            let args := c.arguments.getD (JsonVal.obj [])
            match exec n args s with
            | (s1, .ok v) =>
                let r : BatchEntryResult :=
                  { index := i, ok := true, name := some n, result := some v,
                    error := none }
                let (rs, s2) := runBatchAux exec stopOnError rest (i + 1) s1
                (r :: rs, s2)
            | (s1, .error e) =>
                let r : BatchEntryResult :=
                  { index := i, ok := false, name := some n, result := none,
                    error := some e }
                if stopOnError then ([r], s1)
                else
                  let (rs, s2) := runBatchAux exec stopOnError rest (i + 1) s1
                  (r :: rs, s2)

/-- `runBatchCalls` from the source (after the `calls must be an array`
validation): run the entries sequentially from index 0 and report
`total` = number requested, `returned` = number of per-entry results. -/
def runBatchCalls {σ : Type} (exec : String → JsonVal → σ → σ × Except String JsonVal)
    (calls : List BatchCall) (stopOnError : Bool) (s : σ) : BatchResult × σ :=
  let (rs, s1) := runBatchAux exec stopOnError calls 0 s
  ({ total := calls.length, returned := rs.length, results := rs }, s1)

/-- The loop never returns more results than entries. -/
theorem runBatchAux_length_le {σ : Type}
    (exec : String → JsonVal → σ → σ × Except String JsonVal)
    (stop : Bool) (calls : List BatchCall) :
    ∀ (i : Nat) (s : σ), (runBatchAux exec stop calls i s).1.length ≤ calls.length := by
  induction calls with
  | nil => intro i s; simp [runBatchAux]
  | cons c rest ih =>
      intro i s
      cases hn : c.name with
      | none =>
          cases hstop : stop
          · have h := ih (i + 1) s
            rw [hstop] at h
            simp [runBatchAux, hn, hstop]
            omega
          · simp [runBatchAux, hn, hstop]
      | some n =>
          by_cases hb : n = "batch_calls"
          · cases hstop : stop
            · have h := ih (i + 1) s
              rw [hstop] at h
              simp [runBatchAux, hn, hb, hstop]
              omega
            · simp [runBatchAux, hn, hb, hstop]
          · cases hx : exec n (c.arguments.getD (JsonVal.obj [])) s with
            | mk s1 out =>
                cases out with
                | ok v =>
                    have h := ih (i + 1) s1
                    simp [runBatchAux, hn, hb, hx]
                    omega
                | error e =>
                    cases hstop : stop
                    · have h := ih (i + 1) s1
                      rw [hstop] at h
                      simp [runBatchAux, hn, hb, hx, hstop]
                      omega
                    · simp [runBatchAux, hn, hb, hx, hstop]

/-- Without stop-on-error the loop executes every entry. -/
theorem runBatchAux_length_noStop {σ : Type}
    (exec : String → JsonVal → σ → σ × Except String JsonVal)
    (calls : List BatchCall) :
    ∀ (i : Nat) (s : σ),
      (runBatchAux exec false calls i s).1.length = calls.length := by
  induction calls with
  | nil => intro i s; simp [runBatchAux]
  | cons c rest ih =>
      intro i s
      cases hn : c.name with
      | none => simp [runBatchAux, hn, ih]
      | some n =>
          by_cases hb : n = "batch_calls"
          · simp [runBatchAux, hn, hb, ih]
          · cases hx : exec n (c.arguments.getD (JsonVal.obj [])) s with
            | mk s1 out =>
                cases out with
                | ok v => simp [runBatchAux, hn, hb, hx, ih]
                | error e => simp [runBatchAux, hn, hb, hx, ih]

/-! ## Claim theorems -/

/-- C1: For every forwarded call issued through `sendToPlugin` (a trace
containing exactly one registration of the correlation id `i`, starting
from a state where `i` is not pending), the caller's promise is settled
exactly once: the number of settlement observations for `i` plus the
residual pending occurrence is exactly 1, the number of settlements never
exceeds 1, and whenever `i` is still pending its armed timer's expiry is
guaranteed to settle it with a timeout — every settlement path first
removes the pending entry keyed by the correlation id. -/
theorem claim_C1_settled_exactly_once (st : RelayState) (ts1 ts2 : List Step)
    (i m : String) (p : JsonVal)
    (h0 : st.pending.count i = 0)
    (h1 : ts1.all fun s => !(registersId i s))
    (h2 : ts2.all fun s => !(registersId i s)) :
    obsCount i (runSteps st (ts1 ++ Step.register i m p :: ts2)).2
        + (runSteps st (ts1 ++ Step.register i m p :: ts2)).1.pending.count i = 1
    ∧ obsCount i (runSteps st (ts1 ++ Step.register i m p :: ts2)).2 ≤ 1
    ∧ (i ∈ (runSteps st (ts1 ++ Step.register i m p :: ts2)).1.pending →
        (stepRun (runSteps st (ts1 ++ Step.register i m p :: ts2)).1
          (Step.timeoutFire i)).2 = [⟨i, Outcome.timedOut⟩]) := by
  have hmain := runSteps_register_once i st ts1 ts2 m p h0 h1 h2
  refine ⟨hmain, by omega, ?_⟩
  intro hc
  simp [stepRun, hc]

/-- Witness for C1 at a concrete trace: register "a" for method "ping",
then receive a successful reply for "a". -/
theorem claim_C1_witness :
    (initialState.pending.count "a" = 0
      ∧ (([] : List Step).all fun s => !(registersId "a" s))
      ∧ (([Step.response "a" false] : List Step).all fun s => !(registersId "a" s)))
    ∧ (obsCount "a" (runSteps initialState
          ([] ++ Step.register "a" "ping" JsonVal.null :: [Step.response "a" false])).2
        + (runSteps initialState
          ([] ++ Step.register "a" "ping" JsonVal.null :: [Step.response "a" false])).1.pending.count "a" = 1
      ∧ obsCount "a" (runSteps initialState
          ([] ++ Step.register "a" "ping" JsonVal.null :: [Step.response "a" false])).2 ≤ 1
      ∧ ("a" ∈ (runSteps initialState
          ([] ++ Step.register "a" "ping" JsonVal.null :: [Step.response "a" false])).1.pending →
          (stepRun (runSteps initialState
            ([] ++ Step.register "a" "ping" JsonVal.null :: [Step.response "a" false])).1
            (Step.timeoutFire "a")).2 = [⟨"a", Outcome.timedOut⟩])) :=
  ⟨⟨rfl, rfl, rfl⟩,
   claim_C1_settled_exactly_once initialState [] [Step.response "a" false]
     "a" "ping" JsonVal.null rfl rfl rfl⟩

/-- C2: When the active connection closes while N forwarded calls are
pending, the close handler empties the pending correlation table and emits
one disconnection rejection per formerly pending entry (N of them, in
table order). -/
theorem claim_C2_close_fails_all_pending (st : RelayState) (sock : Nat) :
    (stepRun st (Step.close sock)).1.pending = []
    ∧ (stepRun st (Step.close sock)).2
        = st.pending.map (fun i => ⟨i, Outcome.disconnected⟩)
    ∧ (stepRun st (Step.close sock)).2.length = st.pending.length := by
  refine ⟨rfl, rfl, ?_⟩
  simp [stepRun]

/-- C3: `get_events` with `clear = true` empties the entire event buffer
after computing its result, regardless of any `channel`, `since` or `limit`
filter supplied. -/
theorem claim_C3_clear_empties_whole_buffer (st : RelayState)
    (limit since : Option Int) (channel : Option String) :
    (getEvents st
      { limit := limit, since := since, clear := true, channel := channel }
    ).2.eventBuffer = [] := by
  simp [getEvents]

/-- C4 counterexample: an inbound event message that explicitly carries
`channel = "other"` is nevertheless appended tagged with the active channel
("default"), because `handleEventMessage` never reads the message's own
channel field — both call sites pass the active channel as the override. -/
theorem claim_C4_counterexample :
    (handleEventMessage 200 initialState
        { event := some "selection", payload := JsonVal.null,
          timestamp := some 5, channel := some "other" }
        (some initialState.activeChannel) "id-1" 10).eventBuffer
      = [{ id := "id-1", event := "selection", payload := JsonVal.null,
           timestamp := 5, channel := "default" }]
    ∧ ("default" : String) ≠ "other" := by
  constructor
  · rfl
  · decide

/-- C4 amended: for every inbound event message carrying an event-name
string, the appended Event Buffer entry is tagged with the caller-supplied
override channel — which at both call sites is the active channel — so the
entry is always tagged with the active channel at receipt time and the
message's own channel field is ignored. -/
theorem claim_C4_amended_tag_is_active_channel (C : Nat) (st : RelayState)
    (msg : EventMessage) (genId : String) (now : Int) (e : String)
    (h : msg.event = some e) :
    (handleEventMessage C st msg (some st.activeChannel) genId now).eventBuffer
      = pushEvent C st.eventBuffer
          { id := genId, event := e, payload := msg.payload,
            timestamp := msg.timestamp.getD now, channel := st.activeChannel } := by
  simp [handleEventMessage, h, resolveChannel]

/-- Witness for the amended C4 at a concrete message carrying both a
timestamp and a (non-empty, different) channel field. -/
theorem claim_C4_amended_witness :
    (({ event := some "doc", payload := JsonVal.null, timestamp := some 7,
        channel := some "other" } : EventMessage).event = some "doc")
    ∧ (handleEventMessage 200 initialState
        { event := some "doc", payload := JsonVal.null, timestamp := some 7,
          channel := some "other" }
        (some initialState.activeChannel) "id-2" 99).eventBuffer
      = pushEvent 200 initialState.eventBuffer
          { id := "id-2", event := "doc", payload := JsonVal.null,
            timestamp := (7 : Int), channel := initialState.activeChannel } :=
  ⟨rfl,
   claim_C4_amended_tag_is_active_channel 200 initialState
     { event := some "doc", payload := JsonVal.null, timestamp := some 7,
       channel := some "other" } "id-2" 99 "doc" rfl⟩

/-- C5: for every sequence of appends, the buffer equals exactly the C
most-recently appended events in original append order (`drop (len - C)` —
when the sequence exceeds the capacity C this is exactly the last C
entries), and its size never exceeds C. -/
theorem claim_C5_ring_buffer_last_C (C : Nat) (es : List EventEntry) :
    appendAll C es = es.drop (es.length - C)
    ∧ (appendAll C es).length ≤ C := by
  refine ⟨appendAll_eq_lastC C es, ?_⟩
  rw [appendAll_eq_lastC C es]
  simp
  omega

/-- A concrete executor for the batch examples: every tool succeeds with
`null` except the tool named "fail", which fails with message "boom". -/
def sampleExec : String → JsonVal → Unit → Unit × Except String JsonVal :=
  fun n _ s => (s, if n = "fail" then .error "boom" else .ok JsonVal.null)

/-- C6: batch execution is the strictly sequential loop `runBatchAux`; a
nested `batch_calls` entry is always recorded as a failed entry with the
unsupported-operation error; the result carries `total` = number requested
and `returned` = number of per-entry results; with `stopOnError = false`
every entry executes; and on the entries [ok, fail, ok], `stopOnError =
true` yields exactly two results (indices 0 and 1, the second failed) while
`stopOnError = false` yields three, index 2 executed despite index 1's
failure. -/
theorem claim_C6_batch_semantics (σ : Type)
    (exec : String → JsonVal → σ → σ × Except String JsonVal)
    (calls : List BatchCall) (stop : Bool) (s : σ)
    (args : Option JsonVal) (rest : List BatchCall) (i : Nat) :
    (runBatchCalls exec calls stop s).1.total = calls.length
    ∧ (runBatchCalls exec calls stop s).1.returned
        = (runBatchCalls exec calls stop s).1.results.length
    ∧ (runBatchCalls exec calls stop s).1.returned ≤ calls.length
    ∧ (runBatchAux exec stop (⟨some "batch_calls", args⟩ :: rest) i s).1.head?
        = some { index := i, ok := false, name := none, result := none,
                 error := some "Nested batch_calls is not supported" }
    ∧ (runBatchCalls exec calls false s).1.returned = calls.length
    ∧ (runBatchCalls sampleExec
        [⟨some "ok1", none⟩, ⟨some "fail", none⟩, ⟨some "ok2", none⟩] true ()).1
        = { total := 3, returned := 2,
            results := [
              { index := 0, ok := true, name := some "ok1",
                result := some JsonVal.null, error := none },
              { index := 1, ok := false, name := some "fail",
                result := none, error := some "boom" }] }
    ∧ (runBatchCalls sampleExec
        [⟨some "ok1", none⟩, ⟨some "fail", none⟩, ⟨some "ok2", none⟩] false ()).1
        = { total := 3, returned := 3,
            results := [
              { index := 0, ok := true, name := some "ok1",
                result := some JsonVal.null, error := none },
              { index := 1, ok := false, name := some "fail",
                result := none, error := some "boom" },
              { index := 2, ok := true, name := some "ok2",
                result := some JsonVal.null, error := none }] } := by
  refine ⟨?_, ?_, ?_, ?_, ?_, rfl, rfl⟩
  · simp [runBatchCalls]
  · simp [runBatchCalls]
  · simp [runBatchCalls]
    exact runBatchAux_length_le exec stop calls 0 s
  · cases stop <;> simp [runBatchAux]
  · simp [runBatchCalls]
    exact runBatchAux_length_noStop exec calls 0 s

/-- `clearEvents` only touches the event buffer: the active channel is
preserved. -/
theorem clearEvents_activeChannel (st : RelayState) (ch : Option String) :
    ((clearEvents st ch).2).activeChannel = st.activeChannel := by
  unfold clearEvents
  cases ch with
  | none => rfl
  | some c =>
      by_cases hc : c.isEmpty
      · simp [hc]
      · simp [hc]

/-- `clearEvents` only touches the event buffer: the known-channel set is
preserved. -/
theorem clearEvents_channels (st : RelayState) (ch : Option String) :
    ((clearEvents st ch).2).channels = st.channels := by
  unfold clearEvents
  cases ch with
  | none => rfl
  | some c =>
      by_cases hc : c.isEmpty
      · simp [hc]
      · simp [hc]

/-- C7: `join_channel` adds the label to the known set (idempotently) and
makes it active; `list_channels` then reports it among the known channels
and as active; `leave_channel` on the currently active label resets the
active channel to "default"; and `leave_channel` on "default" never removes
"default" from the known set, regardless of the purge flag. -/
theorem claim_C7_channel_registry (st : RelayState) (c : String) (purge : Bool)
    (hdef : "default" ∈ st.channels) :
    (c ∈ (joinChannel st c).2.channels
      ∧ (joinChannel st c).2.activeChannel = c
      ∧ c ∈ (listChannels (joinChannel st c).2).channels
      ∧ (listChannels (joinChannel st c).2).activeChannel = c)
    ∧ (leaveChannel st st.activeChannel purge).activeChannel = "default"
    ∧ "default" ∈ (leaveChannel st "default" purge).channels := by
  have hjoin : c ∈ (joinChannel st c).2.channels := by
    by_cases hm : c ∈ st.channels
    · simp [joinChannel, hm]
    · simp [joinChannel, hm]
  refine ⟨⟨hjoin, rfl, by simpa [listChannels] using hjoin, rfl⟩, ?_, ?_⟩
  · cases hp : purge <;>
      by_cases hd : st.activeChannel = "default" <;>
        simp [leaveChannel, hd, hp, clearEvents_activeChannel]
  · cases hp : purge <;>
      by_cases ha : st.activeChannel = "default" <;>
        simp [leaveChannel, ha, hp, clearEvents_activeChannel, clearEvents_channels, hdef]

/-- Witness for C7 on the initial state and a fresh label. -/
theorem claim_C7_witness :
    "default" ∈ initialState.channels
    ∧ (("work" ∈ (joinChannel initialState "work").2.channels
      ∧ (joinChannel initialState "work").2.activeChannel = "work"
      ∧ "work" ∈ (listChannels (joinChannel initialState "work").2).channels
      ∧ (listChannels (joinChannel initialState "work").2).activeChannel = "work")
    ∧ (leaveChannel initialState initialState.activeChannel true).activeChannel = "default"
    ∧ "default" ∈ (leaveChannel initialState "default" true).channels) :=
  ⟨by simp [initialState],
   claim_C7_channel_registry initialState "work" true (by simp [initialState])⟩

/-- C9: the close of ANY socket — here one that is not the active socket
(an orphaned, previously replaced connection) — still rejects every entry
of the correlation table with the disconnection error and empties it, while
the active connection reference survives: calls registered against the
newer active connection are failed by the orphaned socket's close. -/
theorem claim_C9_orphan_close_fails_all (st : RelayState) (sock a : Nat)
    (hactive : st.activeSocket = some a) (hne : a ≠ sock) :
    (stepRun st (Step.close sock)).1.pending = []
    ∧ (stepRun st (Step.close sock)).2
        = st.pending.map (fun i => ⟨i, Outcome.disconnected⟩)
    ∧ (stepRun st (Step.close sock)).1.activeSocket = some a := by
  refine ⟨rfl, rfl, ?_⟩
  have : ¬(st.activeSocket = some sock) := by
    rw [hactive]
    intro hcon
    exact hne (by injection hcon)
  simp [stepRun, this, hactive, hne]

/-- Witness for C9: two connections are opened (socket 1 is replaced by
socket 2), a call is registered against the active socket 2, and then the
orphaned socket 1 closes. -/
theorem claim_C9_witness :
    ((runSteps initialState
        [Step.connect 1, Step.connect 2, Step.register "a" "ping" JsonVal.null]).1.activeSocket
      = some 2
    ∧ (2 : Nat) ≠ 1)
    ∧ ((stepRun (runSteps initialState
        [Step.connect 1, Step.connect 2, Step.register "a" "ping" JsonVal.null]).1
        (Step.close 1)).1.pending = []
    ∧ (stepRun (runSteps initialState
        [Step.connect 1, Step.connect 2, Step.register "a" "ping" JsonVal.null]).1
        (Step.close 1)).2
        = (runSteps initialState
            [Step.connect 1, Step.connect 2, Step.register "a" "ping" JsonVal.null]).1.pending.map
            (fun i => ⟨i, Outcome.disconnected⟩)
    ∧ (stepRun (runSteps initialState
        [Step.connect 1, Step.connect 2, Step.register "a" "ping" JsonVal.null]).1
        (Step.close 1)).1.activeSocket = some 2) :=
  ⟨⟨rfl, by decide⟩,
   claim_C9_orphan_close_fails_all
     (runSteps initialState
       [Step.connect 1, Step.connect 2, Step.register "a" "ping" JsonVal.null]).1
     1 2 rfl (by decide)⟩

/-- C10: a timeout firing never touches the FIFO request queue; in
particular, when a forwarded call was enqueued because no open push
connection existed, after its timeout the envelope is still queued, and a
subsequent pull from the host returns exactly that envelope: the host may
receive a call whose caller has already observed a timeout. -/
theorem claim_C10_timeout_leaves_queue (st : RelayState) (i m : String)
    (p : JsonVal) (hcp : canPush st = false) (hq : st.requestQueue = []) :
    (∀ j : String, (stepRun st (Step.timeoutFire j)).1.requestQueue = st.requestQueue)
    ∧ (stepRun (stepRun st (Step.register i m p)).1 (Step.timeoutFire i)).2
        = [⟨i, Outcome.timedOut⟩]
    ∧ (stepRun (stepRun st (Step.register i m p)).1 (Step.timeoutFire i)).1.requestQueue
        = [⟨i, m, p, st.activeChannel⟩]
    ∧ (pullEndpoint
        (stepRun (stepRun st (Step.register i m p)).1 (Step.timeoutFire i)).1).1
        = some ⟨i, m, p, st.activeChannel⟩ := by
  have hframe : ∀ j : String,
      (stepRun st (Step.timeoutFire j)).1.requestQueue = st.requestQueue := by
    intro j
    by_cases hmem : j ∈ st.pending
    · simp [stepRun, hmem]
    · simp [stepRun, hmem]
  have hreg : (stepRun st (Step.register i m p)).1
      = { st with
            pending := if i ∈ st.pending then st.pending else st.pending ++ [i],
            requestQueue := st.requestQueue ++ [⟨i, m, p, st.activeChannel⟩] } := by
    simp [stepRun, hcp]
  have hmem1 : i ∈ (if i ∈ st.pending then st.pending else st.pending ++ [i]) := by
    by_cases hm : i ∈ st.pending
    · simp [hm]
    · simp [hm]
  refine ⟨hframe, ?_, ?_, ?_⟩
  · rw [hreg]
    simp [stepRun, hmem1]
  · rw [hreg]
    simp [stepRun, hmem1, hq]
  · rw [hreg]
    simp [stepRun, hmem1, hq, pullEndpoint]

/-- Witness for C10 from the initial state (no socket, empty queue). -/
theorem claim_C10_witness :
    (canPush initialState = false ∧ initialState.requestQueue = [])
    ∧ ((∀ j : String,
        (stepRun initialState (Step.timeoutFire j)).1.requestQueue
          = initialState.requestQueue)
    ∧ (stepRun (stepRun initialState (Step.register "a" "ping" JsonVal.null)).1
        (Step.timeoutFire "a")).2 = [⟨"a", Outcome.timedOut⟩]
    ∧ (stepRun (stepRun initialState (Step.register "a" "ping" JsonVal.null)).1
        (Step.timeoutFire "a")).1.requestQueue
        = [⟨"a", "ping", JsonVal.null, initialState.activeChannel⟩]
    ∧ (pullEndpoint
        (stepRun (stepRun initialState (Step.register "a" "ping" JsonVal.null)).1
          (Step.timeoutFire "a")).1).1
        = some ⟨"a", "ping", JsonVal.null, initialState.activeChannel⟩) :=
  ⟨⟨rfl, rfl⟩,
   claim_C10_timeout_leaves_queue initialState "a" "ping" JsonVal.null rfl rfl⟩

end FigmaMcp
